import Mathlib

/-!
Verification of the placement/tiering core of the fcpp repository: the
`placed<tier,T,p,q>` class template and its operator layer (src/lib/data/placed.hpp)
and the `common::option<T,enable>` optional-storage primitive (src/lib/common/option.hpp).

Type-level template parameters (the tier bitmasks `p` and `q`) become value-level
data in this shallow embedding; the statically selected storage mode of the
underlying option becomes an `Option` value whose presence mirrors the mode.

The neighboring-field primitive `field<T>` lives in lib/data/field.hpp, which is
not part of the sources (only its callers and tests are); the definitions that
depend on it are modelled from the spec and marked as such in their doc comments.
-/

set_option maxHeartbeats 1000000

namespace Fcpp

/-- Tier bitmask type `tier_t`: the spec describes it as an unsigned integer type
whose bits identify device tiers; its definition lives outside the given sources,
so it is modelled as an 8-bit unsigned mask. `tierTop` is the all-ones mask
`tier_t(-1)` (universal set). -/
def tierTop : Nat := 255

/-- Embedding of `bitsubset` (placed.hpp): `not bool(x & ~y)`, i.e. the bitmask
`x` is a subset of the bitmask `y`; the fixed-width complement `~y` is
`tierTop ^^^ y` in the 8-bit model. -/
def bitsubset (x y : Nat) : Bool := x &&& (tierTop ^^^ y) == 0

/-- Embedding of `tier_inf`: bitwise intersection of a list of tier bitmasks,
with the all-ones mask as base case. -/
def tier_inf (l : List Nat) : Nat := l.foldr (fun x r => x &&& r) tierTop

/-- Embedding of `tier_sup`: bitwise union of a list of tier bitmasks, with the
zero mask as base case. -/
def tier_sup (l : List Nat) : Nat := l.foldr (fun x r => x ||| r) 0

/-- Modelled from the spec: `field<T>` of lib/data/field.hpp (not under src/) is a
"mapping from neighbor identity to a value, with a self-value as the
identity-independent default". `other` is the identity-independent default value
and `data` associates neighbor identities to their values. -/
structure field (A : Type) where
  other : A
  data : List (Nat × A)
deriving DecidableEq

/-- Modelled from the spec: value lookup-or-default for a given identity in a
neighboring field. -/
def field.get {A : Type} (f : field A) (i : Nat) : A :=
  match f.data.find? (fun x => x.1 == i) with
  | some x => x.2
  | none => f.other

/-- Constant neighboring field holding a single local value: the image of a plain
`T` in the field domain (fcpp stores a bare `T` when the visibility bound `q` is
zero; a bare local is represented here by its constant field). -/
def field.const {A : Type} (a : A) : field A := ⟨a, []⟩

/-- Modelled from the spec: pointwise application of a binary operator on
neighboring fields (`map_hood` of lib/data/field.hpp, not under src/): defaults
are combined with defaults, and each identity of either domain is mapped to the
operator applied to the two looked-up values. -/
def map_hood2 {A B C : Type} (op : A → B → C) (f : field A) (g : field B) : field C :=
  ⟨op f.other g.other,
   ((f.data.map Prod.fst ++ g.data.map Prod.fst).dedup).map
     (fun i => (i, op (f.get i) (g.get i)))⟩

/-- Embedding of `placed<tier,T,p,q>` (placed.hpp): the type-level bounds `p`, `q`
become value-level data; the storage `option_type = option<field_type, bool(tier & p)>`
becomes an `Option (field A)` which holds a value exactly in always-mode
(`tier & p` nonzero). The running tier is passed to each operation as a separate
parameter, mirroring the shared `tier` template parameter. -/
structure placed (A : Type) where
  p : Nat
  q : Nat
  data : Option (field A)
deriving DecidableEq

/-- Well-formedness of a placed value relative to the running tier: the optional
storage holds a value exactly when its statically selected mode is always-mode,
i.e. when `tier & p` is nonzero. -/
def placed.wf {A : Type} (tier : Nat) (x : placed A) : Prop :=
  x.data.isSome = (tier &&& x.p != 0)

/-- Embedding of `details::maybe_get_data` on a placed value (placed.hpp):
`x.m_data.front()`; in never-mode `front()` returns a default-constructed value
(option.hpp), modelled by the constant field on the default element. -/
def maybe_get_data {A : Type} [Inhabited A] (x : placed A) : field A :=
  x.data.getD (field.const default)

/-- Embedding of the placed overload of `pmap_hood` on two operands (placed.hpp):
the combined bounds are computed by `to_placed`/`mix_placed` as
`p = tier_inf(p1, p2)` and `q = tier_sup(q1, q2)`; then `details::maybe_perform`
either applies the pointwise map to the unwrapped operands (when `tier & p` is
nonzero) or default-constructs the empty placed result without invoking `op`. -/
def pmap_hood2 {A B C : Type} [Inhabited A] [Inhabited B] (tier : Nat)
    (op : A → B → C) (x : placed A) (y : placed B) : placed C :=
  if tier &&& (x.p &&& y.p) ≠ 0 then
    ⟨x.p &&& y.p, x.q ||| y.q, some (map_hood2 op (maybe_get_data x) (maybe_get_data y))⟩
  else
    ⟨x.p &&& y.p, x.q ||| y.q, none⟩

/-- Embedding of the safe accessor `placed::get_or` (placed.hpp), which delegates
to the option's `get_or`: never-mode returns the supplied default, always-mode
returns the stored data (option.hpp). -/
def placed.get_or {A : Type} (x : placed A) (d : field A) : field A :=
  x.data.getD d

/-- Embedding of `placed::is_compatible<A,p1,q1>` (placed.hpp) for a target type
`placed<tier,T,p,q>` and a source type `placed<tier,A,p1,q1>`:
`std::is_convertible<A,T>::value and bitsubset(p, p1) and bitsubset(q1, q)`;
payload convertibility is abstracted as the boolean `conv`. -/
def is_compatible (conv : Bool) (p q p1 q1 : Nat) : Bool :=
  conv && bitsubset p p1 && bitsubset q1 q

/-- Conversion rule as worded by the spec: permitted exactly when the payload
converts, `p` is a superset of `p1`, and `q1` is a superset of `q`. Stated from
the spec's words only, for comparison against `is_compatible` (which is taken
from the source). -/
def spec_compatible (conv : Bool) (p q p1 q1 : Nat) : Bool :=
  conv && bitsubset p1 p && bitsubset q q1

/-- Modelled from the spec: reduction of a nonempty list of values with a binary
operator, applied in list order; the empty list is outside the contract and
yields the default element. -/
def reduce1 {A : Type} [Inhabited A] (op : A → A → A) : List A → A
  | [] => default
  | [a] => a
  | a :: b :: rest => op a (reduce1 op (b :: rest))

/-- Modelled from the spec: the inclusive field-level `fold_hood` of
lib/data/field.hpp (not under src/), which "folds over the full domain": the
field's looked-up values at the domain identities, reduced with the operator. -/
def fold_field {A : Type} [Inhabited A] (op : A → A → A) (f : field A)
    (dom : List Nat) : A :=
  reduce1 op (dom.map f.get)

/-- Modelled from the spec: the exclusive field-level `fold_hood` of
lib/data/field.hpp (not under src/), which folds over the domain with the seed
value substituted for the excluded identity's contribution. -/
def fold_field_excl {A : Type} [Inhabited A] (op : A → A → A) (f : field A)
    (b : A) (dom : List Nat) (i : Nat) : A :=
  reduce1 op (dom.map (fun d => if d = i then b else f.get d))

/-- Embedding of the placed exclusive `details::fold_hood` (placed.hpp):
`maybe_perform` at the result type `fold_result = placed<tier, _, p, 0>`,
delegating to the field-level fold; the local result is stored as its constant
field since the result's visibility bound is zero. -/
def fold_hood_excl {A : Type} [Inhabited A] (tier : Nat) (op : A → A → A)
    (x : placed A) (b : A) (dom : List Nat) (i : Nat) : placed A :=
  if tier &&& x.p ≠ 0 then
    ⟨x.p, 0, some (field.const (fold_field_excl op (maybe_get_data x) b dom i))⟩
  else
    ⟨x.p, 0, none⟩

/-- Inclusive placed `fold_hood` (invoked as `details::fold_hood(op, x, dom)` by
the test suite; it resolves through lib/data/field.hpp, not under src/, so the
inclusive reduction is modelled from the spec like the exclusive one, with the
same `fold_result` bounds `(p, 0)`). -/
def fold_hood_incl {A : Type} [Inhabited A] (tier : Nat) (op : A → A → A)
    (x : placed A) (dom : List Nat) : placed A :=
  if tier &&& x.p ≠ 0 then
    ⟨x.p, 0, some (field.const (fold_field op (maybe_get_data x) dom))⟩
  else
    ⟨x.p, 0, none⟩

/-- Default construction of a placed value at bounds `(P, Q)` (the `R{}` base
case of `details::get_or`, placed.hpp): in always-mode the option
default-constructs its payload, in never-mode it holds nothing. -/
def placed.mkDefault {A : Type} [Inhabited A] (tier P Q : Nat) : placed A :=
  ⟨P, Q, if tier &&& P ≠ 0 then some (field.const default) else none⟩

/-- Embedding of the recursion of `details::get_or` (placed.hpp): scan the
operands in argument order; the first one whose existence bit is set for the
current tier is unwrapped with `maybe_get_data` and repackaged at the result
bounds; if none matches, the result is default-constructed. -/
def get_or_rec {A : Type} [Inhabited A] (tier P Q : Nat) : List (placed A) → placed A
  | [] => placed.mkDefault tier P Q
  | x :: fs =>
    if tier &&& x.p ≠ 0 then ⟨P, Q, some (maybe_get_data x)⟩
    else get_or_rec tier P Q fs

/-- Embedding of the variadic `get_or` over placed values (placed.hpp): the
result bounds are the unions `tier_sup` of the operands' existence and
visibility bounds. -/
def get_or_var {A : Type} [Inhabited A] (tier : Nat) (xs : List (placed A)) : placed A :=
  get_or_rec tier (tier_sup (xs.map placed.p)) (tier_sup (xs.map placed.q)) xs

/-- Embedding of `common::option<T,false>` (option.hpp): the never-present
variant, which stores nothing. -/
structure optionNever (P : Type) : Type where
  unit : Unit
deriving DecidableEq

/-- Embedding of `common::option<T,true>` (option.hpp): the always-present
variant, which stores exactly its payload. -/
structure optionAlways (P : Type) where
  m_data : P
deriving DecidableEq

/-- Embedding of `common::option<T,2>` (option.hpp): the runtime variant, which
stores a payload and a presence flag. -/
structure optionRuntime (P : Type) where
  m_data : P
  m_some : Bool
deriving DecidableEq

/-- Token written to or read from an abstract serialization stream: either a
`bool` presence flag or a payload value (the payload's own byte encoding is
abstracted as a single token). -/
inductive tok (P : Type) where
  | flag : Bool → tok P
  | pay : P → tok P
deriving DecidableEq

/-- Embedding of `option<T,false>::serialize` for output (option.hpp): writes
nothing to the stream. -/
def serNever {P : Type} (s : List (tok P)) : List (tok P) := s

/-- Embedding of `option<T,false>::serialize` for input (option.hpp): reads
nothing from the stream, leaving it unchanged. -/
def deserNever {P : Type} (s : List (tok P)) : List (tok P) := s

/-- Embedding of `option<T,true>::serialize` for output (option.hpp): writes the
payload unconditionally, with no presence flag. -/
def serAlways {P : Type} (x : optionAlways P) (s : List (tok P)) : List (tok P) :=
  s ++ [tok.pay x.m_data]

/-- Embedding of `option<T,true>::serialize` for input (option.hpp): reads the
payload unconditionally from the front of the stream; anything else at the front
is a stream-format mismatch. -/
def deserAlways {P : Type} (s : List (tok P)) : Option (optionAlways P × List (tok P)) :=
  match s with
  | tok.pay v :: r => some (⟨v⟩, r)
  | _ => none

/-- Embedding of `option<T,2>::serialize` for output (option.hpp): writes the
presence flag `m_some` first, then the payload only when the flag is true. -/
def serRuntime {P : Type} (x : optionRuntime P) (s : List (tok P)) : List (tok P) :=
  s ++ tok.flag x.m_some :: (if x.m_some then [tok.pay x.m_data] else [])

/-- Embedding of `option<T,2>::serialize` for input (option.hpp): reads the
presence flag first, then reads the payload only when the flag is true; when the
flag is false the receiver object keeps its previous payload. -/
def deserRuntime {P : Type} (x : optionRuntime P) (s : List (tok P)) :
    Option (optionRuntime P × List (tok P)) :=
  match s with
  | tok.flag b :: r =>
    if b then
      match r with
      | tok.pay v :: r2 => some (⟨v, true⟩, r2)
      | _ => none
    else some (⟨x.m_data, false⟩, r)
  | _ => none

/-- Embedding of the equality operator of `option<T,false>` (option.hpp): always
true. -/
def eqNever {P : Type} (_x _y : optionNever P) : Bool := true

/-- Embedding of the equality operator of `option<T,true>` (option.hpp): compares
the payloads. -/
def eqAlways {P : Type} [DecidableEq P] (x y : optionAlways P) : Bool :=
  decide (x.m_data = y.m_data)

/-- Embedding of the equality operator of `option<T,2>` (option.hpp): the
presence flags must match and, if present, the payloads must be equal. -/
def eqRuntime {P : Type} [DecidableEq P] (x y : optionRuntime P) : Bool :=
  x.m_some == y.m_some && (!x.m_some || decide (x.m_data = y.m_data))

/-- Embedding of `option<T,false>::get_or` (option.hpp): returns the supplied
default. -/
def getOrNever {P : Type} (_x : optionNever P) (d : P) : P := d

/-- Embedding of `option<T,true>::get_or` (option.hpp): returns the stored
payload, ignoring the default. -/
def getOrAlways {P : Type} (x : optionAlways P) (_d : P) : P := x.m_data

/-- Embedding of `option<T,2>::get_or` (option.hpp): returns the stored payload
when the presence flag is set, else the supplied default. -/
def getOrRuntime {P : Type} (x : optionRuntime P) (d : P) : P :=
  if x.m_some then x.m_data else d

/-- Embedding of `placed::serialize` for output (placed.hpp): delegates to the
underlying option of statically selected mode `bool(tier & p)`, so always-mode
writes the payload and never-mode writes nothing. -/
def placedSer {A : Type} [Inhabited A] (tier : Nat) (x : placed A)
    (s : List (tok (field A))) : List (tok (field A)) :=
  if tier &&& x.p ≠ 0 then s ++ [tok.pay (maybe_get_data x)] else s

/-- Embedding of `placed::serialize` for input (placed.hpp): in always-mode reads
the payload into the receiver, in never-mode reads nothing and leaves the
receiver unchanged. -/
def placedDeser {A : Type} (tier : Nat) (x : placed A) (s : List (tok (field A))) :
    Option (placed A × List (tok (field A))) :=
  if tier &&& x.p ≠ 0 then
    match s with
    | tok.pay v :: r => some (⟨x.p, x.q, some v⟩, r)
    | _ => none
  else some (x, s)

/-- Equality of placed values at the same static type, induced by the equality of
the underlying option (option.hpp): in never-mode any two values are equal, in
always-mode the payloads are compared. -/
def eqPlaced {A : Type} [DecidableEq A] (tier : Nat) (x y : placed A) : Bool :=
  decide (x.p = y.p) && decide (x.q = y.q) &&
    (if tier &&& x.p ≠ 0 then decide (x.data = y.data) else true)

/-- Operand shapes distinguished by the tier inference `details::to_placed`
(placed.hpp): a plain local leaf, a bare neighboring field, or a placed value
with bounds `(p, q)`. -/
inductive operand where
  | leaf : operand
  | bare : operand
  | pl : Nat → Nat → operand
deriving DecidableEq

/-- Existence bound contributed by an operand to `to_placed` (placed.hpp): a
plain leaf contributes `tier_t(-1)`, a bare neighboring field contributes
`tier_t(-1)`, a placed value contributes its own `p`. -/
def operand.pb : operand → Nat
  | .leaf => tierTop
  | .bare => tierTop
  | .pl p _ => p

/-- Visibility bound contributed by an operand to `to_placed` (placed.hpp): a
plain leaf contributes 0, a bare neighboring field contributes `tier_t(-1)`, a
placed value contributes its own `q`. -/
def operand.qb : operand → Nat
  | .leaf => 0
  | .bare => tierTop
  | .pl _ q => q

/-- Combined existence bound of an operand list per `mix_placed` (placed.hpp):
the bitwise intersection `tier_inf` of the contributions. -/
def combined_p (l : List operand) : Nat := tier_inf (l.map operand.pb)

/-- Combined visibility bound of an operand list per `mix_placed` (placed.hpp):
the bitwise union `tier_sup` of the contributions. -/
def combined_q (l : List operand) : Nat := tier_sup (l.map operand.qb)

/-- Bits of the all-ones tier mask: exactly the bits below the modelled width. -/
theorem testBit_tierTop (i : Nat) : Nat.testBit tierTop i = decide (i < 8) := by
  have h : tierTop = 2 ^ 8 - 1 := by norm_num [tierTop]
  rw [h, Nat.testBit_two_pow_sub_one]

/-- Bits at or above the modelled width are clear in any in-range mask. -/
theorem testBit_ge_false {x i : Nat} (hx : x < 256) (hi : 8 ≤ i) : x.testBit i = false := by
  apply Nat.testBit_eq_false_of_lt
  calc x < 256 := hx
    _ = 2 ^ 8 := by norm_num
    _ ≤ 2 ^ i := Nat.pow_le_pow_right (by norm_num) hi

/-- Bitwise intersection is zero exactly when no bit is shared. -/
theorem land_eq_zero_iff {a b : Nat} :
    a &&& b = 0 ↔ ∀ i, a.testBit i = false ∨ b.testBit i = false := by
  constructor
  · intro h i
    have h2 := congrArg (fun n => Nat.testBit n i) h
    simp only [Nat.testBit_land, Nat.zero_testBit] at h2
    cases ha : a.testBit i with
    | false => exact Or.inl rfl
    | true =>
      cases hb : b.testBit i with
      | false => exact Or.inr rfl
      | true => rw [ha, hb] at h2; simp at h2
  · intro h
    apply Nat.zero_of_testBit_eq_false
    intro i
    rw [Nat.testBit_land]
    rcases h i with h1 | h1 <;> simp [h1]

/-- Missing both masks means missing their union. -/
theorem land_lor_zero {t x y : Nat} (hx : t &&& x = 0) (hy : t &&& y = 0) :
    t &&& (x ||| y) = 0 := by
  rw [land_eq_zero_iff] at hx hy ⊢
  intro i
  rcases hx i with h | h
  · exact Or.inl h
  · rcases hy i with h2 | h2
    · exact Or.inl h2
    · right
      rw [Nat.testBit_lor, h, h2]
      rfl

/-- Missing every mask of a list means missing their `tier_sup` union. -/
theorem land_tier_sup_zero {t : Nat} {l : List Nat} (h : ∀ x ∈ l, t &&& x = 0) :
    t &&& tier_sup l = 0 := by
  induction l with
  | nil => simp [tier_sup]
  | cons a l ih =>
    have ha := h a (by simp)
    have hl := ih (fun x hx => h x (by simp [hx]))
    simpa [tier_sup] using land_lor_zero ha hl

/-- Characterization of `bitsubset` on in-range masks: every set bit of `x` is
set in `y`. -/
theorem bitsubset_iff {x y : Nat} (hx : x < 256) :
    bitsubset x y = true ↔ ∀ i < 8, x.testBit i = true → y.testBit i = true := by
  unfold bitsubset
  rw [beq_iff_eq, land_eq_zero_iff]
  constructor
  · intro h i hi hxi
    rcases h i with h1 | h1
    · rw [hxi] at h1; cases h1
    · rw [Nat.testBit_xor, testBit_tierTop] at h1
      simpa [hi] using h1
  · intro h i
    by_cases hi : i < 8
    · cases hxi : x.testBit i with
      | false => exact Or.inl rfl
      | true =>
        right
        rw [Nat.testBit_xor, testBit_tierTop]
        simp [hi, h i hi hxi]
    · exact Or.inl (testBit_ge_false hx (by omega))

/-- Union with the all-ones mask absorbs any value with no high bits. -/
theorem lor_top_left {s : Nat} (hs : ∀ i, 8 ≤ i → s.testBit i = false) :
    tierTop ||| s = tierTop := by
  apply Nat.eq_of_testBit_eq
  intro i
  rw [Nat.testBit_lor, testBit_tierTop]
  by_cases hi : i < 8
  · simp [hi]
  · simp [hi, hs i (by omega)]

/-- Union with the all-ones mask absorbs on the right as well. -/
theorem lor_top_right {s : Nat} (hs : ∀ i, 8 ≤ i → s.testBit i = false) :
    s ||| tierTop = tierTop := by
  rw [Nat.lor_comm]
  exact lor_top_left hs

/-- The `tier_sup` union of in-range masks has no high bits. -/
theorem tier_sup_testBit {l : List Nat} (h : ∀ x ∈ l, x < 256) {i : Nat} (hi : 8 ≤ i) :
    (tier_sup l).testBit i = false := by
  induction l with
  | nil => simp [tier_sup, Nat.zero_testBit]
  | cons a l ih =>
    have ha := testBit_ge_false (h a (by simp)) hi
    have hl := ih (fun x hx => h x (by simp [hx]))
    show (a ||| tier_sup l).testBit i = false
    rw [Nat.testBit_lor, ha, hl]
    rfl

/-- Unfolding of the scan of the variadic `get_or`: it selects the first operand
whose existence bit is set, and default-constructs when no operand matches,
provided the result's existence bound misses the tier in that case. -/
theorem get_or_rec_eq {A : Type} [Inhabited A] (tier P Q : Nat) (xs : List (placed A))
    (hP : (∀ x ∈ xs, tier &&& x.p = 0) → tier &&& P = 0) :
    get_or_rec tier P Q xs =
      ⟨P, Q, (xs.find? (fun x => tier &&& x.p != 0)).map maybe_get_data⟩ := by
  induction xs with
  | nil =>
    have h0 : tier &&& P = 0 := hP (by simp)
    simp [get_or_rec, placed.mkDefault, h0]
  | cons a l ih =>
    by_cases h : tier &&& a.p ≠ 0
    · have hb : (tier &&& a.p != 0) = true := by simpa using h
      simp [get_or_rec, List.find?, h, hb]
    · have ha : tier &&& a.p = 0 := by omega
      have hb : (tier &&& a.p != 0) = false := by simp [ha]
      have hP2 : (∀ x ∈ l, tier &&& x.p = 0) → tier &&& P = 0 := by
        intro hall
        apply hP
        intro x hx
        rcases List.mem_cons.mp hx with rfl | hxl
        · exact ha
        · exact hall x hxl
      simp [get_or_rec, List.find?, h, hb, ih hP2]

/-- C1: combining two placed values over the same (shared) device tier via
`pmap_hood` yields a placed result whose existence bound is the bitwise
intersection of the operands' `p`s and whose visibility bound is the bitwise
union of their `q`s; in particular, adding `placed<8,int,12,2>` holding 1 and
`placed<8,double,24,4>` holding 2 at device tier 8 yields a value of type
`placed<8,double,8,6>` with payload 3.0 (doubles modelled as rationals). -/
theorem C1_pmap_hood_bounds :
    (∀ (A B C : Type) (ia : Inhabited A) (ib : Inhabited B) (tier : Nat)
        (op : A → B → C) (x : placed A) (y : placed B),
      (pmap_hood2 tier op x y).p = x.p &&& y.p ∧
      (pmap_hood2 tier op x y).q = x.q ||| y.q) ∧
    pmap_hood2 8 (fun (a : Int) (b : ℚ) => (a : ℚ) + b)
        ⟨12, 2, some (field.const 1)⟩ ⟨24, 4, some (field.const 2)⟩
      = ⟨8, 6, some (field.const 3)⟩ := by
  constructor
  · intro A B C ia ib tier op x y
    constructor
    · unfold pmap_hood2
      split <;> rfl
    · unfold pmap_hood2
      split <;> rfl
  · show (⟨8, 6, some (field.const (((1 : Int) : ℚ) + 2))⟩ : placed ℚ)
        = ⟨8, 6, some (field.const 3)⟩
    have h : ((1 : Int) : ℚ) + 2 = 3 := by norm_num
    rw [h]

/-- C2: when the current device's tier misses the combined existence bound, the
elementwise function is never invoked — the `pmap_hood` result is the empty
placed value of the combined bounds, identical for every choice of operator —
and the safe accessor `get_or` on that result returns the supplied default. -/
theorem C2_absent_no_eval {A B C : Type} [Inhabited A] [Inhabited B]
    (tier : Nat) (op op2 : A → B → C) (x : placed A) (y : placed B) (d : field C)
    (h : tier &&& (x.p &&& y.p) = 0) :
    pmap_hood2 tier op x y = ⟨x.p &&& y.p, x.q ||| y.q, none⟩ ∧
    pmap_hood2 tier op x y = pmap_hood2 tier op2 x y ∧
    (pmap_hood2 tier op x y).get_or d = d := by
  refine ⟨?_, ?_, ?_⟩ <;> simp [pmap_hood2, h, placed.get_or]

/-- Witness for C2 at tier 8 with operand bounds 4 and 2 (intersection 0, missing
the tier bit): addition and multiplication as the two operators give identical
empty results, and `get_or` returns the default. -/
theorem C2_absent_no_eval_witness :
    pmap_hood2 8 (fun (a b : Int) => a + b)
        (⟨4, 1, none⟩ : placed Int) (⟨2, 2, none⟩ : placed Int)
      = ⟨4 &&& 2, 1 ||| 2, none⟩ ∧
    pmap_hood2 8 (fun (a b : Int) => a + b)
        (⟨4, 1, none⟩ : placed Int) (⟨2, 2, none⟩ : placed Int)
      = pmap_hood2 8 (fun (a b : Int) => a * b)
        (⟨4, 1, none⟩ : placed Int) (⟨2, 2, none⟩ : placed Int) ∧
    (pmap_hood2 8 (fun (a b : Int) => a + b)
        (⟨4, 1, none⟩ : placed Int) (⟨2, 2, none⟩ : placed Int)).get_or (field.const 7)
      = field.const 7 :=
  C2_absent_no_eval 8 (fun a b => a + b) (fun a b => a * b)
    ⟨4, 1, none⟩ ⟨2, 2, none⟩ (field.const 7) (by decide)

/-- C3 counterexample: the source's `is_compatible` permits converting
`placed<8,double,255,0>` into `placed<8,int,11,6>` (the repository's
constructors test exercises exactly this conversion), while the claimed rule —
target `p` a superset of source `p1`, and source `q1` a superset of target `q` —
rejects it; so the claim does not describe the code. -/
theorem C3_conversion_counterexample :
    is_compatible true 11 6 255 0 = true ∧ spec_compatible true 11 6 255 0 = false := by
  decide

/-- C3 as amended: implicit conversion from `placed<tier,A,p1,q1>` to
`placed<tier,T,p,q>` is permitted exactly when A converts to T, `p` is a subset
of `p1` (existence can only shrink across the conversion) and `q1` is a subset
of `q` (visibility can only grow); conversions that grow existence or shrink
visibility are rejected at type-check time. -/
theorem C3_conversion_rule (conv : Bool) (p q p1 q1 : Nat)
    (hp : p < 256) (hq1 : q1 < 256) :
    is_compatible conv p q p1 q1 = true ↔
      conv = true ∧ (∀ i < 8, p.testBit i = true → p1.testBit i = true) ∧
        (∀ i < 8, q1.testBit i = true → q.testBit i = true) := by
  unfold is_compatible
  rw [Bool.and_eq_true, Bool.and_eq_true, bitsubset_iff hp, bitsubset_iff hq1]
  tauto

/-- Witness for the amended C3 at the conversion exercised by the repository's
constructors test: target bounds (11, 6), source bounds (255, 0). -/
theorem C3_conversion_rule_witness :
    is_compatible true 11 6 255 0 = true ↔
      true = true ∧ (∀ i < 8, Nat.testBit 11 i = true → Nat.testBit 255 i = true) ∧
        (∀ i < 8, Nat.testBit 0 i = true → Nat.testBit 6 i = true) :=
  C3_conversion_rule true 11 6 255 0 (by norm_num) (by norm_num)

/-- C4: for a placed neighboring field whose existence bound contains the device
tier, the inclusive `fold_hood` reduces the domain identities' looked-up values
with the binary operator, and the exclusive form folds with the seed substituted
for the excluded identity's contribution; on the fixture mapping identities
{0,1,2} to values {2,4,6} (self value 8), summing over domain {0,1,2} yields
12.0, and the exclusive form with seed 5 excluding identity 2 yields 11.0
(doubles modelled as rationals). -/
theorem C4_fold_hood {A : Type} [Inhabited A] (tier : Nat) (op : A → A → A)
    (x : placed A) (f : field A) (b : A) (dom : List Nat) (i : Nat)
    (hp : tier &&& x.p ≠ 0) (hx : x.data = some f) :
    fold_hood_incl tier op x dom
      = ⟨x.p, 0, some (field.const (reduce1 op (dom.map f.get)))⟩ ∧
    fold_hood_excl tier op x b dom i
      = ⟨x.p, 0, some (field.const
          (reduce1 op (dom.map (fun d => if d = i then b else f.get d))))⟩ ∧
    (fold_hood_incl 8 (fun (u v : ℚ) => u + v)
        (⟨12, 2, some ⟨8, [(0, 2), (1, 4), (2, 6)]⟩⟩ : placed ℚ)
        [0, 1, 2]).get_or (field.const 999) = field.const 12 ∧
    (fold_hood_excl 8 (fun (u v : ℚ) => u + v)
        (⟨12, 2, some ⟨8, [(0, 2), (1, 4), (2, 6)]⟩⟩ : placed ℚ)
        5 [0, 1, 2] 2).get_or (field.const 999) = field.const 11 := by
  refine ⟨?_, ?_, ?_, ?_⟩
  · simp [fold_hood_incl, fold_field, maybe_get_data, hx, hp]
  · simp [fold_hood_excl, fold_field_excl, maybe_get_data, hx, hp]
  · show field.const ((2 : ℚ) + (4 + 6)) = field.const 12
    have h12 : (2 : ℚ) + (4 + 6) = 12 := by norm_num
    rw [h12]
  · show field.const ((2 : ℚ) + (4 + 5)) = field.const 11
    have h11 : (2 : ℚ) + (4 + 5) = 11 := by norm_num
    rw [h11]

/-- Witness for C4 at the test fixture itself: the placed field over tier 8 with
bounds (12, 2) holding the fixture neighboring field. -/
theorem C4_fold_hood_witness :
    fold_hood_incl 8 (fun (u v : ℚ) => u + v)
        (⟨12, 2, some ⟨8, [(0, 2), (1, 4), (2, 6)]⟩⟩ : placed ℚ) [0, 1, 2]
      = ⟨12, 0, some (field.const (reduce1 (fun (u v : ℚ) => u + v)
          ([0, 1, 2].map (field.get ⟨8, [(0, 2), (1, 4), (2, 6)]⟩)))) ⟩ ∧
    fold_hood_excl 8 (fun (u v : ℚ) => u + v)
        (⟨12, 2, some ⟨8, [(0, 2), (1, 4), (2, 6)]⟩⟩ : placed ℚ) 5 [0, 1, 2] 2
      = ⟨12, 0, some (field.const (reduce1 (fun (u v : ℚ) => u + v)
          ([0, 1, 2].map (fun d => if d = 2 then (5 : ℚ)
            else field.get ⟨8, [(0, 2), (1, 4), (2, 6)]⟩ d)))) ⟩ ∧
    (fold_hood_incl 8 (fun (u v : ℚ) => u + v)
        (⟨12, 2, some ⟨8, [(0, 2), (1, 4), (2, 6)]⟩⟩ : placed ℚ)
        [0, 1, 2]).get_or (field.const 999) = field.const 12 ∧
    (fold_hood_excl 8 (fun (u v : ℚ) => u + v)
        (⟨12, 2, some ⟨8, [(0, 2), (1, 4), (2, 6)]⟩⟩ : placed ℚ)
        5 [0, 1, 2] 2).get_or (field.const 999) = field.const 11 :=
  C4_fold_hood 8 (fun (u v : ℚ) => u + v)
    ⟨12, 2, some ⟨8, [(0, 2), (1, 4), (2, 6)]⟩⟩ ⟨8, [(0, 2), (1, 4), (2, 6)]⟩
    5 [0, 1, 2] 2 (by decide) rfl

/-- C5: the variadic `get_or` over placed operands of one payload type and tier
returns, repackaged at the unions of all operands' `p`s and `q`s, the payload of
the first operand in argument order whose existence bit is set for the current
tier, and the empty placed value of those unioned bounds when no operand
matches. -/
theorem C5_get_or_first {A : Type} [Inhabited A] (tier : Nat) (xs : List (placed A)) :
    get_or_var tier xs =
      ⟨tier_sup (xs.map placed.p), tier_sup (xs.map placed.q),
        (xs.find? (fun x => tier &&& x.p != 0)).map maybe_get_data⟩ := by
  unfold get_or_var
  apply get_or_rec_eq
  intro h
  apply land_tier_sup_zero
  intro x hx
  simp only [List.mem_map] at hx
  obtain ⟨y, hy, rfl⟩ := hx
  exact h y hy

/-- C6: serialization of the optional-storage type is mode-asymmetric — the
never-present variant writes and reads nothing, the always-present variant
writes and reads the payload unconditionally with no presence flag, and the
runtime variant writes and reads a presence flag first and then the payload
exactly when the flag is true. -/
theorem C6_serialize_modes {P : Type} (x : optionAlways P) (y y0 : optionRuntime P)
    (s : List (tok P)) (v : P) (r : List (tok P)) :
    serNever s = s ∧
    deserNever s = s ∧
    serAlways x s = s ++ [tok.pay x.m_data] ∧
    deserAlways (tok.pay v :: r) = some (⟨v⟩, r) ∧
    serRuntime y s = s ++ tok.flag y.m_some :: (if y.m_some then [tok.pay y.m_data] else []) ∧
    deserRuntime y0 (tok.flag true :: tok.pay v :: r) = some (⟨v, true⟩, r) ∧
    deserRuntime y0 (tok.flag false :: r) = some (⟨y0.m_data, false⟩, r) :=
  ⟨rfl, rfl, rfl, rfl, rfl, rfl, rfl⟩

/-- C7: serializing then deserializing an optional-storage value in any of the
three presence modes, or a well-formed placed value, reproduces a value equal to
the original under the type's own equality, with the rest of the stream
preserved; the deserializing receiver starts from an arbitrary prior state. -/
theorem C7_round_trip {P A : Type} [DecidableEq P] [DecidableEq A] [Inhabited A]
    (n n0 : optionNever P) (x : optionAlways P) (y y0 : optionRuntime P)
    (z : placed A) (z0 : Option (field A)) (tier : Nat)
    (s r : List (tok P)) (rr : List (tok (field A)))
    (hz : z.wf tier) :
    (eqNever n0 n = true ∧ deserNever (serNever s) = s) ∧
    (deserAlways (serAlways x [] ++ r)).map (fun w => (eqAlways w.1 x, w.2))
      = some (true, r) ∧
    (deserRuntime y0 (serRuntime y [] ++ r)).map (fun w => (eqRuntime w.1 y, w.2))
      = some (true, r) ∧
    (placedDeser tier ⟨z.p, z.q, z0⟩ (placedSer tier z [] ++ rr)).map
        (fun w => (eqPlaced tier w.1 z, w.2)) = some (true, rr) := by
  refine ⟨⟨rfl, rfl⟩, ?_, ?_, ?_⟩
  · simp [serAlways, deserAlways, eqAlways]
  · cases hy : y.m_some
    · simp [serRuntime, deserRuntime, eqRuntime, hy]
    · simp [serRuntime, deserRuntime, eqRuntime, hy]
  · by_cases hm : tier &&& z.p ≠ 0
    · have hsome : z.data.isSome = true := by
        rw [placed.wf] at hz
        rw [hz]
        simpa using hm
      obtain ⟨f, hf⟩ := Option.isSome_iff_exists.mp hsome
      simp [placedSer, placedDeser, eqPlaced, maybe_get_data, hm, hf]
    · have hm0 : tier &&& z.p = 0 := by omega
      simp [placedSer, placedDeser, eqPlaced, hm0]

/-- Witness for C7 at concrete values: integer payloads, a present runtime
option, and a placed value over tier 8 with bounds (12, 2) holding a constant
field, read back into an empty receiver. -/
theorem C7_round_trip_witness :
    (eqNever (⟨()⟩ : optionNever Int) ⟨()⟩ = true ∧
      deserNever (serNever ([] : List (tok Int))) = []) ∧
    (deserAlways (serAlways (⟨5⟩ : optionAlways Int) [] ++ [])).map
        (fun w => (eqAlways w.1 ⟨5⟩, w.2)) = some (true, []) ∧
    (deserRuntime (⟨0, false⟩ : optionRuntime Int)
        (serRuntime (⟨7, true⟩ : optionRuntime Int) [] ++ [])).map
        (fun w => (eqRuntime w.1 ⟨7, true⟩, w.2)) = some (true, []) ∧
    (placedDeser 8 ⟨12, 2, none⟩
        (placedSer 8 (⟨12, 2, some (field.const 3)⟩ : placed Int) [] ++ [])).map
        (fun w => (eqPlaced 8 w.1 ⟨12, 2, some (field.const 3)⟩, w.2))
      = some (true, []) :=
  C7_round_trip ⟨()⟩ ⟨()⟩ ⟨5⟩ ⟨7, true⟩ ⟨0, false⟩
    ⟨12, 2, some (field.const 3)⟩ none 8 [] [] []
    (by unfold placed.wf; decide)

/-- C8: `get_or` on the optional-storage type is total in every presence mode —
the never variant returns the supplied default, the always variant returns the
stored value, and the runtime variant returns the stored value when the presence
flag is set and the default otherwise. -/
theorem C8_get_or_total {P : Type} (n : optionNever P) (a : optionAlways P)
    (rt : optionRuntime P) (d : P) :
    getOrNever n d = d ∧
    getOrAlways a d = a.m_data ∧
    getOrRuntime rt d = (if rt.m_some then rt.m_data else d) :=
  ⟨rfl, rfl, rfl⟩

/-- C9: a placed `fold_hood` result carries bounds `(p, 0)` — the existence bound
of the folded operand is preserved and the visibility bound is always zero,
whatever the operand's own visibility bound was, for both the exclusive and the
inclusive form. -/
theorem C9_fold_bounds {A : Type} [Inhabited A] (tier : Nat) (op : A → A → A)
    (x : placed A) (b : A) (dom : List Nat) (i : Nat) :
    ((fold_hood_excl tier op x b dom i).p = x.p ∧
      (fold_hood_excl tier op x b dom i).q = 0) ∧
    ((fold_hood_incl tier op x dom).p = x.p ∧
      (fold_hood_incl tier op x dom).q = 0) := by
  refine ⟨⟨?_, ?_⟩, ⟨?_, ?_⟩⟩
  · unfold fold_hood_excl
    split <;> rfl
  · unfold fold_hood_excl
    split <;> rfl
  · unfold fold_hood_incl
    split <;> rfl
  · unfold fold_hood_incl
    split <;> rfl

/-- C10: in tier inference, a bare neighboring field contributes existence bound
all-ones and visibility bound all-ones — unlike a plain local leaf, whose
visibility contribution is zero — so the combined visibility bound of any
operand list containing a bare field is all-ones. -/
theorem C10_bare_field_bounds (l : List operand)
    (hb : operand.bare ∈ l) (hq : ∀ o ∈ l, operand.qb o < 256) :
    operand.pb operand.bare = tierTop ∧
    operand.qb operand.bare = tierTop ∧
    operand.qb operand.leaf = 0 ∧
    combined_q l = tierTop := by
  refine ⟨rfl, rfl, rfl, ?_⟩
  induction l with
  | nil => cases hb
  | cons a l ih =>
    have hqa := hq a (by simp)
    have hql : ∀ o ∈ l, operand.qb o < 256 := fun o ho => hq o (by simp [ho])
    have hmap : ∀ x ∈ l.map operand.qb, x < 256 := by
      intro x hx
      simp only [List.mem_map] at hx
      obtain ⟨o, ho, rfl⟩ := hx
      exact hql o ho
    rcases List.mem_cons.mp hb with rfl | hbl
    · show tierTop ||| tier_sup (l.map operand.qb) = tierTop
      exact lor_top_left (fun i hi => tier_sup_testBit hmap hi)
    · have h3 : tier_sup (l.map operand.qb) = tierTop := ih hbl hql
      show operand.qb a ||| tier_sup (l.map operand.qb) = tierTop
      rw [h3]
      exact lor_top_right (fun i hi => testBit_ge_false hqa hi)

/-- Witness for C10 at the operand list of a plain leaf followed by a bare
neighboring field. -/
theorem C10_bare_field_witness :
    operand.pb operand.bare = tierTop ∧
    operand.qb operand.bare = tierTop ∧
    operand.qb operand.leaf = 0 ∧
    combined_q [operand.leaf, operand.bare] = tierTop :=
  C10_bare_field_bounds [operand.leaf, operand.bare] (by decide) (by decide)

end Fcpp
